import Mathlib

/-!
Verification of `src/project.py` (a pandas-based CSV price-list aggregator).

The embedding models the program's data as pandas holds it:

* A cell value (`Val`) is a missing value (`NaN`, written `Val.null`), a
  number (exact rational, standing for the int64/float64 values `read_csv`
  produces), a string, or one of the two float infinities (which arise from
  float division by zero).
* A parsed CSV file (`Df`) is column-major — a list of (header, cells)
  pairs — because `_add_data_to_base` iterates over `df.columns`.
* The aggregate `self.agregate_price` (`Agg`) is a list of
  (index label, record) pairs; its five canonical columns are fixed by
  `__create_base_df` from `column_names`, so records are a typed `Row`.

Pandas behaviours relevant here, reflected in the definitions:

* Float Series division never raises `ZeroDivisionError`: `p / 0` is
  `+inf`/`-inf` (or `NaN` for `0 / 0`), and `NaN` propagates.
* A column holds strings exactly when its dtype is `object`; dividing an
  `object` column is element-wise Python arithmetic, and a string operand
  raises `TypeError`, aborting the whole column assignment.
* `pd.concat(..., ignore_index=True)` relabels the result `0..n-1`.
* `sort_values(ascending=True)` places `NaN` last (`na_position`
  default). Its default `kind` (`quicksort`) leaves the order of ties
  unspecified, so claims about sort order are stated against the
  contract `sortValuesOk` (permutation, sorted by the key, `NaN` last,
  any tie order); the function-level pipeline uses one admissible
  deterministic implementation, relied on in claims only where no two
  keys tie.
* `Series.str.contains(text, case=False)` treats `text` as a regular
  expression (`regex=True` default) with `re.IGNORECASE`; a non-string
  element yields `NaN` in the mask and `df.loc` raises on a mask with
  `NaN`; both raises are caught by `find_text`'s handlers. The regex
  engine is modelled on a fragment (literals, `.`, `|`); theorems
  evaluate the model outside it only where the program's result is
  independently forced (a leading quantifier raises `re.error`; a
  non-string name cell empties every search).

The `headers` and `column_names` dictionaries are the concrete ones built
in `main`.
-/

namespace PriceMachine

/-- A pandas cell value: `NaN`, a number, a string, `+inf`, or `-inf`. -/
inductive Val where
  | null : Val
  | num : ℚ → Val
  | str : String → Val
  | inf : Val
  | neginf : Val
deriving DecidableEq

/-- Is the cell a string (its column then has `object` dtype)? -/
def Val.isStr : Val → Bool
  | .str _ => true
  | _ => false

/-- One row of the aggregate table: the five canonical columns created by
`__create_base_df` from `column_names.values()`. -/
structure Row where
  name : Val
  price : Val
  weight : Val
  file : Val
  pricePerKg : Val
deriving DecidableEq

/-- The aggregate `DataFrame`: index label paired with each record. -/
abbrev Agg := List (Nat × Row)

/-- A parsed CSV file, column-major: (raw header, cells) per column. -/
abbrev Df := List (String × List Val)

/-- The `headers` dict of `main`: raw column name → canonical column name. -/
def headersMap : List (String × String) :=
  [("название", "название"), ("продукт", "название"), ("товар", "название"),
   ("наименование", "название"), ("цена", "цена"), ("розница", "цена"),
   ("фасовка", "вес"), ("масса", "вес"), ("вес", "вес")]

/-- The `colunm_names` dict of `main`: canonical key → column name. -/
def column_names : List (String × String) :=
  [("name", "название"), ("price", "цена"), ("weight", "вес"),
   ("file", "файл"), ("price_per_kg", "цена за кг.")]

/-- `s.lower()` (over the character list, so that it computes by
kernel reduction). -/
def lowerStr (s : String) : String := String.mk (s.data.map Char.toLower)

/-- `needle` occurs in `hay` (Python's `in` on lists of characters). -/
def listPrefixOf : List Char → List Char → Bool
  | [], _ => true
  | _ :: _, [] => false
  | a :: as, b :: bs => a == b && listPrefixOf as bs

/-- Python's `s.endswith(suffix)`, over the character lists. -/
def strEndsWith (s suffix : String) : Bool :=
  listPrefixOf suffix.data.reverse s.data.reverse

/-- Substring occurrence at some position. -/
def listSubOf (needle : List Char) : List Char → Bool
  | [] => listPrefixOf needle []
  | b :: bs => listPrefixOf needle (b :: bs) || listSubOf needle bs

/-- Python's `needle in hay` for strings. -/
def strContainsSub (hay needle : String) : Bool :=
  listSubOf needle.data hay.data

/-- Errors that escape `load_prices` (no handler in `__get_files`). -/
inductive FsErr where
  | fileNotFound : FsErr
deriving DecidableEq

/-- What `pd.read_csv` does on one file before `__read_csv`'s handlers:
either a parsed frame or a raised parse/IO error. -/
inductive ReadErr where
  | notFound : ReadErr
  | emptyData : ReadErr
  | other : ReadErr
deriving DecidableEq

/-- A directory entry: file name and the outcome of parsing that file. -/
abbrev FsFile := String × Except ReadErr Df

/-- `__get_files`: `os.listdir` raises `FileNotFoundError` on a missing
directory (no handler); otherwise keep names ending in `.csv` whose
lowercased name contains `"price"`. -/
def get_files (dir : Option (List FsFile)) : Except FsErr (List FsFile) :=
  match dir with
  | none => .error .fileNotFound
  | some files =>
      .ok (files.filter fun f =>
        strEndsWith f.1 ".csv" && strContainsSub (lowerStr f.1) "price")

/-- `__read_csv`: every parse error is caught and logged, and an empty
`DataFrame` is returned. -/
def read_csv (r : Except ReadErr Df) : Df :=
  match r with
  | .ok df => df
  | .error _ => []

/-- Set a key's value in an association list, keeping its position
(repeated `temp_df[c] = ...` assignments overwrite the column in place). -/
def assocSet (l : List (String × List Val)) (k : String) (v : List Val) :
    List (String × List Val) :=
  match l with
  | [] => [(k, v)]
  | (k', v') :: rest =>
      if k' = k then (k, v) :: rest else (k', v') :: assocSet rest k v

/-- The loop of `_add_data_to_base`:
`for col in df.columns: if col in headers: temp_df[headers[col]] = df[col]`.
A later column mapped to the same canonical name overwrites the earlier
one (last write wins). -/
def tempBuild (df : Df) : List (String × List Val) :=
  df.foldl
    (fun acc col =>
      match List.lookup col.1 headersMap with
      | some canon => assocSet acc canon col.2
      | none => acc)
    []

/-- `temp_df`'s row count: its index is set by the first column assignment
(zero rows when no column was mapped), so `temp_df["файл"] = filename`
broadcasts over that many rows. -/
def tempRows (temp : List (String × List Val)) : Nat :=
  match temp with
  | [] => 0
  | (_, vs) :: _ => vs.length

/-- Cell `i` of canonical column `c` in `temp_df`; a column `temp_df`
lacks becomes `NaN` after the `concat` with the base frame. -/
def cellAt (temp : List (String × List Val)) (c : String) (i : Nat) : Val :=
  match List.lookup c temp with
  | some vs => vs.getD i .null
  | none => .null

/-- Relabel records `k, k+1, ...` (the index a `range` assignment or
`ignore_index=True` concat produces). -/
def relabelFrom (k : Nat) : List Row → Agg
  | [] => []
  | r :: rs => (k, r) :: relabelFrom (k + 1) rs

/-- The records one file contributes: `temp_df`'s rows, read back through
the canonical columns (a canonical column `temp_df` lacks is `NaN` after
the concat), stamped with the file name; the derived column does not
exist in `temp_df`, so it is `NaN`. -/
def newRecords (df : Df) (filename : String) : List Row :=
  (List.range (tempRows (tempBuild df))).map fun i =>
    { name := cellAt (tempBuild df) "название" i
      price := cellAt (tempBuild df) "цена" i
      weight := cellAt (tempBuild df) "вес" i
      file := .str filename
      pricePerKg := .null }

/-- `_add_data_to_base df filename`: map the file's columns through
`headers` into `temp_df`, stamp `temp_df["файл"] = filename`, and
`pd.concat([self.agregate_price, temp_df], ignore_index=True)` (which
relabels the result `0..n-1`). -/
def _add_data_to_base (df : Df) (filename : String) (t : Agg) : Agg :=
  relabelFrom 0 (t.map (·.2) ++ newRecords df filename)

/-- `load_prices`: list the directory (raising on a missing one), then
read each chosen file and add it to the aggregate. -/
def load_prices (dir : Option (List FsFile)) (t : Agg) : Except FsErr Agg :=
  match get_files dir with
  | .error e => .error e
  | .ok files =>
      .ok (files.foldl (fun acc f => _add_data_to_base (read_csv f.2) f.1 acc) t)

/-- Round to nearest integer, ties to even (numpy's rounding). -/
def roundHalfEven (q : ℚ) : ℤ :=
  let f : ℤ := ⌊q⌋
  let r : ℚ := q - f
  if r < 1 / 2 then f
  else if 1 / 2 < r then f + 1
  else if f % 2 = 0 then f else f + 1

/-- `Series.round(2)` on one numeric value. -/
def round2 (q : ℚ) : ℚ := (roundHalfEven (q * 100) : ℚ) / 100

/-- `.round(2)` elementwise: `NaN` and the infinities round to themselves. -/
def round2Val : Val → Val
  | .num q => .num (round2 q)
  | v => v

/-- Float Series division of one pair of cells (numeric dtype): division
by zero yields `±inf` (`NaN` for `0/0`), and `NaN` propagates. The
`price` and `weight` cells a CSV can produce are numbers, strings or
`NaN`, so no `±inf` operand arises. -/
def pdDivFloat : Val → Val → Val
  | .num p, .num w =>
      if w = 0 then
        if p = 0 then .null else if 0 < p then .inf else .neginf
      else .num (p / w)
  | _, _ => .null

/-- Does the column extracted by `f` contain a string (giving the column
`object` dtype, so that division is element-wise Python arithmetic)? -/
def colHasStr (f : Row → Val) (t : Agg) : Bool :=
  t.any fun p => (f p.2).isStr

/-- `_calucate_price_weight`: assign
`(price column / weight column).round(2)` to the derived column. When
either column holds a string, the element-wise division raises
`TypeError`, which is caught and logged and the frame is left unchanged.
Otherwise the float division never raises (`ZeroDivisionError` cannot
occur on float Series) and every record gets its quotient. -/
def _calucate_price_weight (t : Agg) : Agg :=
  if colHasStr (·.price) t || colHasStr (·.weight) t then t
  else t.map fun p => (p.1, { p.2 with pricePerKg := round2Val (pdDivFloat p.2.price p.2.weight) })

/-- Sort rank for ascending `sort_values`: `-inf < numbers < +inf`, and
`NaN` after everything (`na_position="last"` default). Strings never
occur in the one column the program sorts (the derived float column); the
trailing rank merely keeps the order total. -/
def sortRankAsc : Val → ℕ
  | .neginf => 0
  | .num _ => 1
  | .inf => 2
  | .null => 3
  | .str _ => 4

/-- Sort rank for descending `sort_values` (`NaN` still last). -/
def sortRankDesc : Val → ℕ
  | .inf => 0
  | .num _ => 1
  | .neginf => 2
  | .null => 3
  | .str _ => 4

/-- Numeric component of the sort key. -/
def sortQ : Val → ℚ
  | .num q => q
  | _ => 0

/-- Ascending cell order of `sort_values(ascending=True)`. -/
def valAsc (a b : Val) : Bool :=
  decide (sortRankAsc a < sortRankAsc b ∨
    (sortRankAsc a = sortRankAsc b ∧ sortQ a ≤ sortQ b))

/-- Descending cell order of `sort_values(ascending=False)`. -/
def valDesc (a b : Val) : Bool :=
  decide (sortRankDesc a < sortRankDesc b ∨
    (sortRankDesc a = sortRankDesc b ∧ sortQ b ≤ sortQ a))

/-- The cell a record shows in a canonical column. -/
def rowKeyVal (col : String) (r : Row) : Val :=
  if col = "название" then r.name
  else if col = "цена" then r.price
  else if col = "вес" then r.weight
  else if col = "файл" then r.file
  else if col = "цена за кг." then r.pricePerKg
  else .null

/-- The record order `sort_values(by=col, ascending=asc)` sorts by; index
labels travel with their records. -/
def pairOrd (col : String) (asc : Bool) (a b : Nat × Row) : Prop :=
  (if asc then valAsc else valDesc) (rowKeyVal col a.2) (rowKeyVal col b.2) = true

instance (col : String) (asc : Bool) : DecidableRel (pairOrd col asc) :=
  fun a b =>
    Bool.decEq ((if asc then valAsc else valDesc) (rowKeyVal col a.2) (rowKeyVal col b.2)) true

/-- One admissible outcome of `sort_values(by=col, ascending=asc)`. The
library's default sort kind leaves the relative order of records with
equal keys unspecified, so every claim about sort order is stated
against the contract `sortValuesOk` below; this concrete deterministic
implementation is used by the function-level pipeline and appears in
claims only where no two keys tie (so every admissible outcome
coincides with it). -/
def sortPairs (col : String) (asc : Bool) (t : Agg) : Agg :=
  List.insertionSort (pairOrd col asc) t

/-- The contract `sort_values(by=col, ascending=asc)` documents: the
result is some permutation of the rows, ordered by the key with `NaN`
last; which permutation the ties take is left unspecified by the
default sort kind (`quicksort`). -/
def sortValuesOk (col : String) (asc : Bool) (t t' : Agg) : Prop :=
  t'.Perm t ∧ List.Sorted (pairOrd col asc) t'

/-- `sort_data(field, order_asc)`: `self.column_names[field]` raises
`KeyError` (uncaught) for an unknown field, else the frame is sorted by
the resolved column. -/
def sort_data (t : Agg) (field : String := "price_per_kg") (asc : Bool := true) :
    Except Unit Agg :=
  match List.lookup field column_names with
  | some col => .ok (sortPairs col asc t)
  | none => .error ()

/-- `prepare_data`: derive the price-per-kg column, `sort_data()` (its
default field resolves to the derived column), then assign the index
`range(1, len+1)`. This function is one deterministic representative of
the outcomes `finalizeRel` admits; claims that depend on tie order are
stated against `finalizeRel`. -/
def prepare_data (t : Agg) : Agg :=
  relabelFrom 1 ((sortPairs "цена за кг." true (_calucate_price_weight t)).map (·.2))

/-- The possible results of `prepare_data`: derive the price-per-kg
column, sort by it under the library's contract (tie order unspecified),
then assign the index `range(1, len+1)`. -/
def finalizeRel (t t' : Agg) : Prop :=
  ∃ s : Agg, sortValuesOk "цена за кг." true (_calucate_price_weight t) s
    ∧ t' = relabelFrom 1 (s.map (·.2))

/-- One token of the modelled fragment of Python `re` patterns: a literal
character or the `.` wildcard. -/
inductive RTok where
  | lit : Char → RTok
  | dot : RTok
deriving DecidableEq

/-- Metacharacters outside the modelled fragment. A pattern containing
one is not modelled: `parseRe` returns `none` for it, whether `re`
would accept it or reject it; no theorem evaluates the model at such a
pattern except where the program's result is independently known (a
leading quantifier raises `re.error`, and a table with a non-string
name cell makes the program return empty for every pattern). -/
def isUnsupportedMeta (c : Char) : Bool :=
  c ∈ ['*', '+', '?', '(', ')', '[', ']', '^', '$', '\\', '\x7b', '\x7d']

/-- Parse one pattern character of the fragment. -/
def parseTok (c : Char) : Option RTok :=
  if isUnsupportedMeta c then none
  else if c = '.' then some .dot
  else some (.lit c)

/-- Parse a pattern into its `|`-alternatives, each a token sequence;
`none` when the pattern falls outside the modelled fragment (any
occurrence of an unmodelled metacharacter). -/
def parseRe (s : String) : Option (List (List RTok)) :=
  if s.data.any isUnsupportedMeta then none
  else (s.data.splitOn '|').mapM fun branch => branch.mapM parseTok

/-- Does the pattern start with a quantifier? Such a pattern — `*`, `+`
or `?` with no atom before it — is rejected by Python's `re` with
`re.error` ("nothing to repeat at position 0"), whatever follows. -/
def leadingQuantifier (s : String) : Bool :=
  match s.data with
  | [] => false
  | c :: _ => c == '*' || c == '+' || c == '?'

/-- Does a token match a character, under `re.IGNORECASE` (`case=False`)?
`.` matches anything but a newline. -/
def tokMatch : RTok → Char → Bool
  | .lit c, ch => c.toLower == ch.toLower
  | .dot, ch => ch != '\n'

/-- Does a token sequence match a prefix of the text? -/
def branchMatchesAt : List RTok → List Char → Bool
  | [], _ => true
  | _ :: _, [] => false
  | tk :: ts, c :: cs => tokMatch tk c && branchMatchesAt ts cs

/-- `re.search`: some alternative matches at some position. -/
def reSearchFrom (branches : List (List RTok)) : List Char → Bool
  | [] => branches.any fun b => branchMatchesAt b []
  | c :: cs =>
      (branches.any fun b => branchMatchesAt b (c :: cs)) || reSearchFrom branches cs

/-- `Series.str.contains(text, case=False)` on one cell: a string cell
gives a Boolean, any other cell gives `NaN` in the mask. -/
def containsMask (branches : List (List RTok)) : Val → Option Bool
  | .str s => some (reSearchFrom branches s.data)
  | _ => none

/-- The body of `find_text` before its handlers: compile the pattern
(`re.error` on an invalid one), build the mask, and `df.loc[mask]`, which
raises `ValueError` if the mask contains `NaN` (a record with a
non-string `название` cell). The model is faithful where theorems use
it: on patterns of the modelled fragment (matching semantics
implemented), on patterns with a leading quantifier (genuinely
`re.error`, so the program also ends in the error path), and on tables
containing a non-string name (the `NaN` mask makes the program return
empty for every pattern). Other patterns with regex syntax outside the
fragment also land in the error path here although `re` may match them;
no theorem evaluates the model there. -/
def findTextRaw (t : Agg) (text : String) : Except Unit Agg :=
  match parseRe text with
  | none => .error ()
  | some branches =>
      if (t.map fun p => containsMask branches p.2.name).any (·.isNone) then
        .error ()
      else .ok (t.filter fun p => (containsMask branches p.2.name).getD false)

/-- `find_text`: the canonical `название` column always exists in the
aggregate (created by `__create_base_df`), so the `KeyError` branch is
dead; every other exception — invalid pattern, `NaN` in the mask — is
caught by `except Exception`, logged, and an empty `DataFrame` is
returned. -/
def find_text (t : Agg) (text : String) : Agg :=
  match findTextRaw t text with
  | .ok res => res
  | .error _ => []

/-- The fixed page template of `export_to_html` around the rendered
table; the body is `DataFrame.to_html`, abstracted as a parameter-free
rendering of the records. `open`/`write` failures (`IOError`) are caught
and logged, so the in-memory aggregate is untouched either way; the model
returns the written text, or `none` on a failed write. -/
def export_to_html (render : Agg → String) (t : Agg) (writeOk : Bool) :
    Option String :=
  if writeOk then some (render t) else none

/-- The cells the last column of `df` mapped to canonical name `c`
carries (later columns overwrite earlier ones in `temp_df`). -/
def lastMapped (c : String) : Df → Option (List Val)
  | [] => none
  | col :: rest =>
      match lastMapped c rest with
      | some v => some v
      | none => if List.lookup col.1 headersMap == some c then some col.2 else none

/-- Row `i`'s cell in canonical column `c`, last-write-wins. -/
def lastMappedCell (df : Df) (c : String) (i : Nat) : Val :=
  match lastMapped c df with
  | some vs => vs.getD i .null
  | none => .null

/-- The loop step of `tempBuild`. -/
def tempStep (acc : List (String × List Val)) (col : String × List Val) :
    List (String × List Val) :=
  match List.lookup col.1 headersMap with
  | some canon => assocSet acc canon col.2
  | none => acc

/-! ### Sorting and `prepare_data` lemmas -/

/-- The record-level order underlying `pairOrd`. -/
def rowOrd (col : String) (asc : Bool) (a b : Row) : Prop :=
  (if asc then valAsc else valDesc) (rowKeyVal col a) (rowKeyVal col b) = true

/-- Column a string holds over a plain record list. -/
def rowsHasStr (f : Row → Val) (l : List Row) : Bool :=
  l.any fun r => (f r).isStr

/-! ### Concrete inputs used by closed theorems -/

/-- File A of the spec's round-trip example (header `товар,цена,вес`, row
`Bread,100,0.5`), as `read_csv` parses it. -/
def dfBread : Df :=
  [("товар", [.str "Bread"]), ("цена", [.num 100]), ("вес", [.num (1 / 2)])]

/-- File B of the round-trip example (header `наименование,розница,масса`,
row `Milk,150,1.0`). -/
def dfMilk : Df :=
  [("наименование", [.str "Milk"]), ("розница", [.num 150]), ("масса", [.num 1])]

/-- A one-record aggregate whose record is named `Milk`. -/
def aggMilk : Agg :=
  [(1, { name := .str "Milk", price := .num 150, weight := .num 1,
         file := .str "price_2.csv", pricePerKg := .null })]

/-- `aggMilk` plus a record whose name cell is `NaN`. -/
def aggMilkAndNull : Agg :=
  aggMilk ++ [(2, { name := .null, price := .num 10, weight := .num 1,
                    file := .str "price_3.csv", pricePerKg := .null })]

/-- A one-record aggregate whose record name contains a literal `*`. -/
def aggStarName : Agg :=
  [(1, { name := .str "a*b", price := .null, weight := .null,
         file := .str "price_4.csv", pricePerKg := .null })]

/-! ### Bundled claim conclusions -/

/-- What every outcome `finalizeRel` admits for `t` guarantees: ordinals
are `1..N`; the records are a permutation of the derived table's
records; and they are ascending in the derived column with `NaN` placed
last. (Deliberately nothing about tie order: the library's default sort
kind leaves it unspecified.) -/
def finalizeOutcomeSpec (t t' : Agg) : Prop :=
  (t'.map (·.1) = List.range' 1 t.length)
  ∧ (t'.map (·.2)).Perm ((_calucate_price_weight t).map (·.2))
  ∧ List.Sorted (rowOrd "цена за кг." true) (t'.map (·.2))
  ∧ (∀ i j : Fin t'.length, (i : Nat) < (j : Nat) →
      (t'.get i).2.pricePerKg = Val.null →
      (t'.get j).2.pricePerKg = Val.null)

/-- Does the record's name match the query, compiled as a
(case-insensitive) regular expression? -/
def nameMatches (text : String) (r : Row) : Bool :=
  match parseRe text, r.name with
  | some branches, .str s => reSearchFrom branches s.data
  | _, _ => false

/-- What `find_text` actually guarantees, on the inputs where the model
is faithful: with a pattern in the modelled fragment and every name a
string, it returns exactly the records whose name matches the query as
a case-insensitive regular expression; a pattern starting with a
quantifier is an invalid regular expression and gives an empty result
through the exception handler; and a record with a `NaN` name is never
returned, for any query (its presence sends the program down the error
path for every pattern, valid or not). -/
def searchSpec (t : Agg) (text : String) : Prop :=
  ((parseRe text).isSome = true →
    t.all (fun p => p.2.name.isStr) = true →
    find_text t text = t.filter fun p => nameMatches text p.2)
  ∧ (leadingQuantifier text = true → find_text t text = [])
  ∧ (∀ p ∈ t, p.2.name = Val.null → p ∉ find_text t text)

/-- What ingesting one parsed file guarantees, record-wise: with no
mapped column the aggregate's records are unchanged (the file's rows are
dropped entirely); with some mapped column and a well-formed frame
(every column `n` cells), exactly `n` records are appended, each holding
the last-write-wins mapped cells, the stamped file name, and a `NaN`
derived cell. -/
def ingestSpec (df : Df) (filename : String) (t : Agg) (n : Nat) : Prop :=
  (df.all (fun col => (List.lookup col.1 headersMap).isNone) = true →
    (_add_data_to_base df filename t).map (·.2) = t.map (·.2))
  ∧ (df.any (fun col => (List.lookup col.1 headersMap).isSome) = true →
    df.all (fun col => col.2.length == n) = true →
    (_add_data_to_base df filename t).map (·.2) =
      t.map (·.2) ++ (List.range n).map fun i =>
        { name := lastMappedCell df "название" i
          price := lastMappedCell df "цена" i
          weight := lastMappedCell df "вес" i
          file := Val.str filename
          pricePerKg := Val.null })

/-! ### Additional concrete inputs for claim theorems -/

/-- The aggregate after loading the two example files in order A, B. -/
def rawBreadMilk : Agg :=
  [(0, { name := .str "Bread", price := .num 100, weight := .num (1 / 2),
         file := .str "price_1.csv", pricePerKg := .null }),
   (1, { name := .str "Milk", price := .num 150, weight := .num 1,
         file := .str "price_2.csv", pricePerKg := .null })]

/-- The aggregate after loading the two example files in order B, A. -/
def rawMilkBread : Agg :=
  [(0, { name := .str "Milk", price := .num 150, weight := .num 1,
         file := .str "price_2.csv", pricePerKg := .null }),
   (1, { name := .str "Bread", price := .num 100, weight := .num (1 / 2),
         file := .str "price_1.csv", pricePerKg := .null })]

/-- The Bread record with its derived value. -/
def breadD : Row :=
  { name := .str "Bread", price := .num 100, weight := .num (1 / 2),
    file := .str "price_1.csv", pricePerKg := .num 200 }

/-- The Milk record with its derived value. -/
def milkD : Row :=
  { name := .str "Milk", price := .num 150, weight := .num 1,
    file := .str "price_2.csv", pricePerKg := .num 150 }

/-- One record with weight `0` and price `100`. -/
def aggZeroWeight : Agg :=
  [(0, { name := .str "A", price := .num 100, weight := .num 0,
         file := .str "price_1.csv", pricePerKg := .null })]

/-- One record with a `NaN` weight. -/
def aggNullWeight : Agg :=
  [(0, { name := .str "A", price := .num 100, weight := .null,
         file := .str "price_1.csv", pricePerKg := .null })]

/-- A record with a non-numeric price next to a perfectly good record. -/
def aggStrPrice : Agg :=
  [(0, { name := .str "A", price := .str "n/a", weight := .num 1,
         file := .str "price_1.csv", pricePerKg := .null }),
   (1, { name := .str "B", price := .num 100, weight := .num 2,
         file := .str "price_1.csv", pricePerKg := .null })]

/-- A table whose derived values come out as `+inf` and `NaN` — no
arithmetic on reduced rationals, so closed theorems over it compute. -/
def aggZeroAndNull : Agg :=
  [(0, { name := .str "A", price := .num 100, weight := .num 0,
         file := .str "price_1.csv", pricePerKg := .null }),
   (1, { name := .str "B", price := .null, weight := .num 1,
         file := .str "price_1.csv", pricePerKg := .null })]

/-- A single-column frame none of whose headers is mapped. -/
def dfUnmapped : Df := [("unknown", [.str "v"])]

/-- A record whose derived value is `NaN` (null price). -/
def rowTieA : Row :=
  { name := .str "A", price := .null, weight := .num 1,
    file := .str "price_1.csv", pricePerKg := .null }

/-- A second, distinct record with the same (`NaN`) derived value. -/
def rowTieB : Row :=
  { name := .str "B", price := .null, weight := .num 1,
    file := .str "price_1.csv", pricePerKg := .null }

/-- Two records tied on the derived value, A before B. -/
def aggTie : Agg := [(0, rowTieA), (1, rowTieB)]

/-- The finalize outcome that keeps the tied records in input order. -/
def tieStable : Agg := [(1, rowTieA), (2, rowTieB)]

/-- The finalize outcome that swaps the tied records — equally admitted
by the sort contract, since tie order is unspecified. -/
def tieSwapped : Agg := [(1, rowTieB), (2, rowTieA)]

/-! ### Theorems -/

/-! ### Order lemmas for the sort comparators -/

theorem valAsc_refl (a : Val) : valAsc a a = true := by
  simp [valAsc]

theorem valAsc_total (a b : Val) : valAsc a b = true ∨ valAsc b a = true := by
  simp only [valAsc, decide_eq_true_eq]
  rcases Nat.lt_trichotomy (sortRankAsc a) (sortRankAsc b) with h | h | h
  · exact Or.inl (Or.inl h)
  · rcases le_total (sortQ a) (sortQ b) with hq | hq
    · exact Or.inl (Or.inr ⟨h, hq⟩)
    · exact Or.inr (Or.inr ⟨h.symm, hq⟩)
  · exact Or.inr (Or.inl h)

theorem valAsc_trans {a b c : Val} (h1 : valAsc a b = true) (h2 : valAsc b c = true) :
    valAsc a c = true := by
  simp only [valAsc, decide_eq_true_eq] at h1 h2 ⊢
  rcases h1 with h1 | ⟨he1, hq1⟩ <;> rcases h2 with h2 | ⟨he2, hq2⟩
  · exact Or.inl (h1.trans h2)
  · exact Or.inl (he2 ▸ h1)
  · exact Or.inl (he1 ▸ h2)
  · exact Or.inr ⟨he1.trans he2, hq1.trans hq2⟩

theorem valDesc_total (a b : Val) : valDesc a b = true ∨ valDesc b a = true := by
  simp only [valDesc, decide_eq_true_eq]
  rcases Nat.lt_trichotomy (sortRankDesc a) (sortRankDesc b) with h | h | h
  · exact Or.inl (Or.inl h)
  · rcases le_total (sortQ b) (sortQ a) with hq | hq
    · exact Or.inl (Or.inr ⟨h, hq⟩)
    · exact Or.inr (Or.inr ⟨h.symm, hq⟩)
  · exact Or.inr (Or.inl h)

theorem valDesc_trans {a b c : Val} (h1 : valDesc a b = true) (h2 : valDesc b c = true) :
    valDesc a c = true := by
  simp only [valDesc, decide_eq_true_eq] at h1 h2 ⊢
  rcases h1 with h1 | ⟨he1, hq1⟩ <;> rcases h2 with h2 | ⟨he2, hq2⟩
  · exact Or.inl (h1.trans h2)
  · exact Or.inl (he2 ▸ h1)
  · exact Or.inl (he1 ▸ h2)
  · exact Or.inr ⟨he1.trans he2, hq2.trans hq1⟩

instance (col : String) (asc : Bool) : IsTotal (Nat × Row) (pairOrd col asc) := by
  constructor
  intro a b
  unfold pairOrd
  cases asc
  · simpa using valDesc_total (rowKeyVal col a.2) (rowKeyVal col b.2)
  · simpa using valAsc_total (rowKeyVal col a.2) (rowKeyVal col b.2)

instance (col : String) (asc : Bool) : IsTrans (Nat × Row) (pairOrd col asc) := by
  constructor
  intro a b c hab hbc
  cases asc
  · have h1 : valDesc (rowKeyVal col a.2) (rowKeyVal col b.2) = true := by
      simpa [pairOrd] using hab
    have h2 : valDesc (rowKeyVal col b.2) (rowKeyVal col c.2) = true := by
      simpa [pairOrd] using hbc
    simpa [pairOrd] using valDesc_trans h1 h2
  · have h1 : valAsc (rowKeyVal col a.2) (rowKeyVal col b.2) = true := by
      simpa [pairOrd] using hab
    have h2 : valAsc (rowKeyVal col b.2) (rowKeyVal col c.2) = true := by
      simpa [pairOrd] using hbc
    simpa [pairOrd] using valAsc_trans h1 h2

/-! ### Relabelling lemmas -/

theorem relabelFrom_map_snd (k : Nat) (l : List Row) :
    (relabelFrom k l).map (·.2) = l := by
  induction l generalizing k with
  | nil => rfl
  | cons r rs ih => simp [relabelFrom, ih]

theorem relabelFrom_map_fst (k : Nat) (l : List Row) :
    (relabelFrom k l).map (·.1) = List.range' k l.length := by
  induction l generalizing k with
  | nil => rfl
  | cons r rs ih => simp [relabelFrom, List.range', ih]

theorem relabelFrom_length (k : Nat) (l : List Row) :
    (relabelFrom k l).length = l.length := by
  induction l generalizing k with
  | nil => rfl
  | cons r rs ih => simp [relabelFrom, ih]

/-- `List.any` is invariant under permutation. -/
theorem any_of_perm {α : Type} {l l' : List α} (h : l.Perm l') (f : α → Bool) :
    l.any f = l'.any f := by
  have hiff : (l.any f = true) ↔ (l'.any f = true) := by
    simp only [List.any_eq_true]
    constructor
    · rintro ⟨x, hx, hfx⟩
      exact ⟨x, h.mem_iff.mp hx, hfx⟩
    · rintro ⟨x, hx, hfx⟩
      exact ⟨x, h.mem_iff.mpr hx, hfx⟩
  cases hl' : l'.any f with
  | true => exact hiff.mpr hl'
  | false =>
    cases hl : l.any f with
    | true => exact ((by simp [hl'] : ¬ (l'.any f = true)) (hiff.mp hl)).elim
    | false => rfl

/-! ### Ingestion lemmas -/

/-- The records of the aggregate after adding a file: the old records
followed by the file's contribution (relabelling does not touch them). -/
theorem add_data_rows (df : Df) (nm : String) (t : Agg) :
    (_add_data_to_base df nm t).map (·.2) = t.map (·.2) ++ newRecords df nm := by
  unfold _add_data_to_base
  exact relabelFrom_map_snd 0 _

/-- An empty `DataFrame` (what `__read_csv` yields on a bad file)
contributes no records. -/
theorem newRecords_nil (nm : String) : newRecords [] nm = [] := rfl

/-- Adding a file only looks at the records of the aggregate, not at its
index labels, so folds from label-divergent but record-equal aggregates
stay record-equal. -/
theorem foldl_add_rows_congr (fs : List FsFile) :
    ∀ t t' : Agg, t.map (·.2) = t'.map (·.2) →
    ((fs.foldl (fun acc f => _add_data_to_base (read_csv f.2) f.1 acc) t).map (·.2)) =
      ((fs.foldl (fun acc f => _add_data_to_base (read_csv f.2) f.1 acc) t').map (·.2)) := by
  induction fs with
  | nil => intro t t' h; exact h
  | cons f rest ih =>
    intro t t' h
    apply ih
    rw [add_data_rows, add_data_rows, h]

/-- Adding a bad (unreadable) file leaves the records unchanged up to
relabelling. -/
theorem add_bad_file_rows (nm : String) (e : ReadErr) (t : Agg) :
    (_add_data_to_base (read_csv (.error e)) nm t).map (·.2) = t.map (·.2) := by
  rw [show read_csv (.error e) = [] from rfl, add_data_rows, newRecords_nil,
    List.append_nil]

theorem tempBuild_eq_foldl (df : Df) :
    tempBuild df = df.foldl tempStep [] := rfl

theorem lookup_assocSet (c k : String) (v : List Val)
    (l : List (String × List Val)) :
    List.lookup c (assocSet l k v) = if c = k then some v else List.lookup c l := by
  induction l with
  | nil =>
    by_cases h : c = k
    · simp [assocSet, List.lookup, h]
    · have hb : (c == k) = false := by simp [h]
      simp [assocSet, List.lookup, hb, h]
  | cons e rest ih =>
    by_cases hek : e.1 = k
    · rw [show assocSet (e :: rest) k v = (k, v) :: rest by
        simp [assocSet, hek]]
      by_cases hck : c = k
      · simp [List.lookup, hck]
      · have hb : (c == k) = false := by simp [hck]
        have hbe : (c == e.1) = false := by
          simp only [beq_eq_false_iff_ne, ne_eq]
          intro h
          exact hck (h.trans hek)
        simp [List.lookup, hb, hbe, hck]
    · rw [show assocSet (e :: rest) k v = e :: assocSet rest k v by
        simp [assocSet, hek]]
      by_cases hce : c = e.1
      · have hb : (c == e.1) = true := by simp [hce]
        have hck : ¬c = k := fun h => hek (by rw [← hce]; exact h)
        simp [List.lookup, hb, hck]
      · have hb : (c == e.1) = false := by simp [hce]
        simp [List.lookup, hb, ih]

theorem lookup_foldl_tempStep (c : String) (df : Df) :
    ∀ acc, List.lookup c (df.foldl tempStep acc) =
      match lastMapped c df with
      | some v => some v
      | none => List.lookup c acc := by
  induction df with
  | nil => intro acc; rfl
  | cons col rest ih =>
    intro acc
    rw [List.foldl_cons, ih]
    cases hrest : lastMapped c rest with
    | some v => simp [lastMapped, hrest]
    | none =>
      simp only [lastMapped, hrest]
      unfold tempStep
      cases hmap : List.lookup col.1 headersMap with
      | none =>
        have : (List.lookup col.1 headersMap == some c) = false := by
          simp [hmap]
        simp [this]
      | some canon =>
        by_cases hc : canon = c
        · subst hc
          simp [hmap, lookup_assocSet]
        · have hb : (List.lookup col.1 headersMap == some c) = false := by
            simp [hmap, hc]
          have hc' : ¬c = canon := fun h => hc h.symm
          simp [hb, lookup_assocSet, hc, hc']

/-- The canonical column `c` of `temp_df` holds the cells of the last
`df` column that `headers` maps to `c`. -/
theorem lookup_tempBuild (c : String) (df : Df) :
    List.lookup c (tempBuild df) =
      match lastMapped c df with
      | some v => some v
      | none => none := by
  rw [tempBuild_eq_foldl, lookup_foldl_tempStep]
  cases lastMapped c df <;> rfl

theorem cellAt_tempBuild (c : String) (df : Df) (i : Nat) :
    cellAt (tempBuild df) c i = lastMappedCell df c i := by
  unfold cellAt lastMappedCell
  rw [lookup_tempBuild]
  cases lastMapped c df <;> rfl

theorem assocSet_ne_nil (l : List (String × List Val)) (k : String)
    (v : List Val) : assocSet l k v ≠ [] := by
  cases l with
  | nil => simp [assocSet]
  | cons e rest =>
    unfold assocSet
    by_cases h : e.1 = k <;> simp [h]

theorem foldl_tempStep_ne_nil (df : Df) :
    ∀ acc, acc ≠ [] → df.foldl tempStep acc ≠ [] := by
  induction df with
  | nil => intro acc h; exact h
  | cons col rest ih =>
    intro acc h
    rw [List.foldl_cons]
    apply ih
    unfold tempStep
    cases List.lookup col.1 headersMap with
    | none => exact h
    | some canon => exact assocSet_ne_nil acc canon col.2

/-- If some column of `df` is mapped, `temp_df` has a column. -/
theorem tempBuild_ne_nil :
    ∀ df : Df, df.any (fun col => (List.lookup col.1 headersMap).isSome) = true →
      tempBuild df ≠ []
  | [], h => by simp at h
  | col :: rest, h => by
    rw [tempBuild_eq_foldl, List.foldl_cons]
    cases hmap : List.lookup col.1 headersMap with
    | some canon =>
      apply foldl_tempStep_ne_nil
      simp only [tempStep, hmap]
      exact assocSet_ne_nil [] canon col.2
    | none =>
      have h' : rest.any (fun col => (List.lookup col.1 headersMap).isSome) = true := by
        simp only [List.any_cons, hmap] at h
        simpa using h
      have hrest := tempBuild_ne_nil rest h'
      rw [tempBuild_eq_foldl] at hrest
      simpa only [tempStep, hmap] using hrest

theorem mem_assocSet {e : String × List Val} {l : List (String × List Val)}
    {k : String} {v : List Val} (h : e ∈ assocSet l k v) :
    e = (k, v) ∨ e ∈ l := by
  induction l with
  | nil => simpa [assocSet] using h
  | cons x rest ih =>
    unfold assocSet at h
    by_cases hx : x.1 = k
    · rw [if_pos hx] at h
      rcases List.mem_cons.mp h with h | h
      · exact Or.inl h
      · exact Or.inr (List.mem_cons_of_mem x h)
    · rw [if_neg hx] at h
      rcases List.mem_cons.mp h with h | h
      · exact Or.inr (h ▸ List.mem_cons_self x rest)
      · rcases ih h with h | h
        · exact Or.inl h
        · exact Or.inr (List.mem_cons_of_mem x h)

/-- Every column of `temp_df` carries the cells of some column of `df`. -/
theorem mem_foldl_tempStep (df : Df) :
    ∀ (acc : List (String × List Val)) (e : String × List Val),
      e ∈ df.foldl tempStep acc → (∃ col ∈ df, e.2 = col.2) ∨ e ∈ acc := by
  induction df with
  | nil => intro acc e h; exact Or.inr h
  | cons col rest ih =>
    intro acc e h
    rw [List.foldl_cons] at h
    rcases ih _ e h with h' | h'
    · rcases h' with ⟨c2, hc2, he⟩
      exact Or.inl ⟨c2, List.mem_cons_of_mem col hc2, he⟩
    · simp only [tempStep] at h'
      cases hmap : List.lookup col.1 headersMap with
      | none => rw [hmap] at h'; exact Or.inr h'
      | some canon =>
        rw [hmap] at h'
        rcases mem_assocSet h' with he | he
        · exact Or.inl ⟨col, List.mem_cons_self col rest, by rw [he]⟩
        · exact Or.inr he

/-- With a well-formed `df` (every column `n` cells long) and at least
one mapped column, `temp_df` has `n` rows. -/
theorem tempRows_eq (df : Df) (n : Nat)
    (hwf : df.all (fun col => col.2.length == n) = true)
    (hmapped : df.any (fun col => (List.lookup col.1 headersMap).isSome) = true) :
    tempRows (tempBuild df) = n := by
  cases htemp : tempBuild df with
  | nil => exact absurd htemp (tempBuild_ne_nil df hmapped)
  | cons e rest =>
    obtain ⟨k, vs⟩ := e
    have he : (k, vs) ∈ tempBuild df := htemp ▸ List.mem_cons_self (k, vs) rest
    rw [tempBuild_eq_foldl] at he
    rcases mem_foldl_tempStep df [] (k, vs) he with ⟨col, hcol, he2⟩ | hmem
    · have hlen := List.all_eq_true.mp hwf col hcol
      simp only [tempRows]
      simp only at he2
      rw [he2]
      simpa using hlen
    · simp at hmem

/-- With no mapped column, `temp_df` stays completely empty. -/
theorem tempBuild_eq_nil :
    ∀ df : Df, df.all (fun col => (List.lookup col.1 headersMap).isNone) = true →
      tempBuild df = []
  | [], _ => rfl
  | col :: rest, h => by
    have h1 : (List.lookup col.1 headersMap).isNone = true :=
      List.all_eq_true.mp h col (List.mem_cons_self col rest)
    have h2 : rest.all (fun col => (List.lookup col.1 headersMap).isNone) = true :=
      List.all_eq_true.mpr fun x hx =>
        List.all_eq_true.mp h x (List.mem_cons_of_mem col hx)
    have hrest := tempBuild_eq_nil rest h2
    rw [tempBuild_eq_foldl] at hrest ⊢
    rw [List.foldl_cons]
    cases hmap : List.lookup col.1 headersMap with
    | some canon => rw [hmap] at h1; simp at h1
    | none => simpa only [tempStep, hmap] using hrest

theorem colHasStr_eq_rows (f : Row → Val) (t : Agg) :
    colHasStr f t = rowsHasStr f (t.map (·.2)) := by
  induction t with
  | nil => rfl
  | cons p rest ih =>
    simp only [colHasStr, rowsHasStr, List.map_cons, List.any_cons] at ih ⊢
    rw [ih]

theorem sorted_pairs_iff_rows (col : String) (asc : Bool) (l : Agg) :
    List.Sorted (pairOrd col asc) l ↔ List.Sorted (rowOrd col asc) (l.map (·.2)) := by
  unfold List.Sorted
  rw [List.pairwise_map]
  exact Iff.rfl

theorem sorted_sortPairs (col : String) (asc : Bool) (t : Agg) :
    List.Sorted (pairOrd col asc) (sortPairs col asc t) :=
  List.sorted_insertionSort _ t

theorem sortPairs_perm (col : String) (asc : Bool) (t : Agg) :
    (sortPairs col asc t).Perm t :=
  List.perm_insertionSort _ t

theorem sorted_relabelFrom (col : String) (asc : Bool) (k : Nat) (l : List Row)
    (h : List.Sorted (rowOrd col asc) l) :
    List.Sorted (pairOrd col asc) (relabelFrom k l) := by
  rw [sorted_pairs_iff_rows, relabelFrom_map_snd]
  exact h

theorem derive_length (t : Agg) :
    (_calucate_price_weight t).length = t.length := by
  unfold _calucate_price_weight
  split <;> simp

theorem finalizeRel_rows_perm {t t' : Agg} (h : finalizeRel t t') :
    (t'.map (·.2)).Perm ((_calucate_price_weight t).map (·.2)) := by
  obtain ⟨s, ⟨hperm, _⟩, rfl⟩ := h
  rw [relabelFrom_map_snd]
  exact hperm.map (·.2)

theorem sorted_of_finalizeRel {t t' : Agg} (h : finalizeRel t t') :
    List.Sorted (pairOrd "цена за кг." true) t' := by
  obtain ⟨s, ⟨_, hsort⟩, rfl⟩ := h
  apply sorted_relabelFrom
  rw [← sorted_pairs_iff_rows]
  exact hsort

theorem finalizeRel_map_fst {t t' : Agg} (h : finalizeRel t t') :
    t'.map (·.1) = List.range' 1 t.length := by
  obtain ⟨s, ⟨hperm, _⟩, rfl⟩ := h
  rw [relabelFrom_map_fst, List.length_map, hperm.length_eq, derive_length]

theorem finalizeRel_length {t t' : Agg} (h : finalizeRel t t') :
    t'.length = t.length := by
  obtain ⟨s, ⟨hperm, _⟩, rfl⟩ := h
  rw [relabelFrom_length, List.length_map, hperm.length_eq, derive_length]

/-- `prepare_data` itself is one of the outcomes the contract admits. -/
theorem finalizeRel_prepare (t : Agg) : finalizeRel t (prepare_data t) :=
  ⟨sortPairs "цена за кг." true (_calucate_price_weight t),
   ⟨sortPairs_perm _ _ _, sorted_sortPairs _ _ _⟩, rfl⟩

/-- Deriving the price-per-kg column never touches the `price` or
`weight` columns, so their string content is unchanged. -/
theorem colHasStr_derive (f : Row → Val)
    (hf : ∀ (r : Row) (v : Val), f { r with pricePerKg := v } = f r) (t : Agg) :
    colHasStr f (_calucate_price_weight t) = colHasStr f t := by
  unfold _calucate_price_weight
  by_cases h : (colHasStr (·.price) t || colHasStr (·.weight) t) = true
  · rw [if_pos h]
  · rw [if_neg h]
    unfold colHasStr
    rw [List.any_map]
    have : ((fun p : Nat × Row => (f p.2).isStr) ∘
        fun p : Nat × Row =>
          (p.1, { p.2 with pricePerKg := round2Val (pdDivFloat p.2.price p.2.weight) })) =
        fun p : Nat × Row => (f p.2).isStr := by
      funext p
      simp only [Function.comp]
      rw [hf]
    rw [this]

/-- When the division is computed, every derived record carries the
quotient of its own `price` and `weight` cells. -/
theorem derive_rows_invariant (t : Agg)
    (h : (colHasStr (·.price) t || colHasStr (·.weight) t) = false) :
    ∀ r ∈ (_calucate_price_weight t).map (·.2),
      r.pricePerKg = round2Val (pdDivFloat r.price r.weight) := by
  unfold _calucate_price_weight
  rw [if_neg (by simp [h])]
  intro r hr
  rw [List.map_map] at hr
  rcases List.mem_map.mp hr with ⟨p, _, rfl⟩
  rfl

theorem colHasStr_of_rows_perm (f : Row → Val)
    (hf : ∀ (r : Row) (v : Val), f { r with pricePerKg := v } = f r) {t u : Agg}
    (hrows : (u.map (·.2)).Perm ((_calucate_price_weight t).map (·.2))) :
    colHasStr f u = colHasStr f t := by
  rw [colHasStr_eq_rows]
  unfold rowsHasStr
  rw [any_of_perm hrows]
  rw [show ((_calucate_price_weight t).map (·.2)).any (fun r => (f r).isStr) =
      rowsHasStr f ((_calucate_price_weight t).map (·.2)) from rfl]
  rw [← colHasStr_eq_rows]
  exact colHasStr_derive f hf t

/-- `_calucate_price_weight` is idempotent on every admitted finalize
outcome: the derived cells recompute to their current values, since the
`price` and `weight` columns are untouched. -/
theorem derive_of_finalizeRel {t t' : Agg} (h : finalizeRel t t') :
    _calucate_price_weight t' = t' := by
  have hrows := finalizeRel_rows_perm h
  have hp : colHasStr (·.price) t' = colHasStr (·.price) t :=
    colHasStr_of_rows_perm (fun r => r.price) (fun r v => rfl) hrows
  have hw : colHasStr (·.weight) t' = colHasStr (·.weight) t :=
    colHasStr_of_rows_perm (fun r => r.weight) (fun r v => rfl) hrows
  by_cases hcond : (colHasStr (·.price) t || colHasStr (·.weight) t) = true
  · unfold _calucate_price_weight
    rw [if_pos (by rw [hp, hw]; exact hcond)]
  · have hcond' : (colHasStr (·.price) t || colHasStr (·.weight) t) = false := by
      simpa using hcond
    have hinv : ∀ r ∈ t'.map (·.2),
        r.pricePerKg = round2Val (pdDivFloat r.price r.weight) := by
      intro r hr
      exact derive_rows_invariant t hcond' r (hrows.mem_iff.mp hr)
    unfold _calucate_price_weight
    rw [if_neg (by rw [hp, hw]; simp [hcond'])]
    have hid : ∀ p ∈ t',
        (p.1, { p.2 with pricePerKg := round2Val (pdDivFloat p.2.price p.2.weight) }) = p := by
      intro p hp'
      have hr : p.2 ∈ t'.map (·.2) := List.mem_map.mpr ⟨p, hp', rfl⟩
      have := hinv p.2 hr
      rw [← this]
    exact (List.map_congr_left hid).trans (List.map_id _)

theorem rowKeyVal_ppw (r : Row) : rowKeyVal "цена за кг." r = r.pricePerKg := by
  simp [rowKeyVal]

theorem valAsc_null_right {x : Val} (h : valAsc .null x = true)
    (hs : x.isStr = false) : x = .null := by
  cases x <;> simp_all [valAsc, sortRankAsc, Val.isStr]

/-! ### Evaluation helpers for the round-trip example -/

theorem round2Val_bread :
    round2Val (pdDivFloat (.num 100) (.num (1 / 2))) = .num 200 := by
  simp only [pdDivFloat]
  rw [if_neg (by norm_num)]
  unfold round2Val round2 roundHalfEven
  norm_num

theorem round2Val_milk :
    round2Val (pdDivFloat (.num 150) (.num 1)) = .num 150 := by
  simp only [pdDivFloat]
  rw [if_neg (by norm_num)]
  unfold round2Val round2 roundHalfEven
  norm_num

theorem derive_rawBreadMilk :
    _calucate_price_weight rawBreadMilk = [(0, breadD), (1, milkD)] := by
  unfold _calucate_price_weight
  rw [if_neg (by decide)]
  simp only [rawBreadMilk, List.map]
  rw [round2Val_bread, round2Val_milk]
  rfl

theorem derive_rawMilkBread :
    _calucate_price_weight rawMilkBread = [(0, milkD), (1, breadD)] := by
  unfold _calucate_price_weight
  rw [if_neg (by decide)]
  simp only [rawMilkBread, List.map]
  rw [round2Val_bread, round2Val_milk]
  rfl

/-! ### Claim theorems -/

/-- C1 (code bug): the "compute-or-null" policy fails on the code. A
record with weight `0` gets `+inf` (pandas float division never raises
the `ZeroDivisionError` the handler expects), not null; a single
non-numeric price aborts the whole column assignment via `TypeError`, so
the good record `B` is also left null instead of receiving `50.0`. The
null-weight case does behave as claimed, and no exception escapes
(`_calucate_price_weight` is total). -/
theorem c1_derive_policy_violated :
    _calucate_price_weight aggZeroWeight =
      [(0, { name := .str "A", price := .num 100, weight := .num 0,
             file := .str "price_1.csv", pricePerKg := .inf })]
    ∧ _calucate_price_weight aggStrPrice = aggStrPrice
    ∧ _calucate_price_weight aggNullWeight = aggNullWeight := by
  refine ⟨by decide, by decide, by decide⟩

/-- C2: loading exactly the two example files (in either discovery
order) and finalizing yields two records with derived values 200.0
(Bread) and 150.0 (Milk); the ascending sort places Milk at ordinal 1
and Bread at ordinal 2. -/
theorem c2_round_trip :
    load_prices (some [("price_1.csv", .ok dfBread), ("price_2.csv", .ok dfMilk)]) []
      = .ok rawBreadMilk
    ∧ load_prices (some [("price_2.csv", .ok dfMilk), ("price_1.csv", .ok dfBread)]) []
      = .ok rawMilkBread
    ∧ prepare_data rawBreadMilk = [(1, milkD), (2, breadD)]
    ∧ prepare_data rawMilkBread = [(1, milkD), (2, breadD)] := by
  refine ⟨rfl, rfl, ?_, ?_⟩
  · show relabelFrom 1
        ((sortPairs "цена за кг." true (_calucate_price_weight rawBreadMilk)).map (·.2))
      = _
    rw [derive_rawBreadMilk]
    rfl
  · show relabelFrom 1
        ((sortPairs "цена за кг." true (_calucate_price_weight rawMilkBread)).map (·.2))
      = _
    rw [derive_rawMilkBread]
    rfl

/-- C3 (counterexample): the claim's "produced by a stable sort" fails
on the code. `sort_values` is called with its default sort kind, which
leaves the order of records with equal keys unspecified, so `tieSwapped`
— which reverses the two records tied on a null derived value — is an
admitted `prepare_data` outcome, yet its tie class is not in the input
order a stable sort would preserve. -/
theorem c3_stability_counterexample :
    finalizeRel aggTie tieSwapped
    ∧ (tieSwapped.map (·.2)).filter (fun r => r.pricePerKg == Val.null)
        ≠ ((_calucate_price_weight aggTie).map (·.2)).filter
            (fun r => r.pricePerKg == Val.null) := by
  constructor
  · exact ⟨[(1, rowTieB), (0, rowTieA)], ⟨by decide, by decide⟩, rfl⟩
  · decide

/-- C3 (amended): every finalize outcome the library's sort contract
admits has display ordinals `1..N`, holds a permutation of the derived
table's records, and is ascending in `price_per_weight` with nulls
last; the relative order of tied records carries no guarantee. The
hypothesis — the derived column holds no string — is true of every
pipeline-produced table, since that column is only ever `NaN` or a
float quotient. -/
theorem c3_finalize_outcomes (t t' : Agg) (hrel : finalizeRel t t')
    (h : colHasStr (·.pricePerKg) (_calucate_price_weight t) = false) :
    finalizeOutcomeSpec t t' := by
  refine ⟨finalizeRel_map_fst hrel, finalizeRel_rows_perm hrel, ?_, ?_⟩
  · have hs := sorted_of_finalizeRel hrel
    rw [sorted_pairs_iff_rows] at hs
    exact hs
  · intro i j hij hinull
    have hs := sorted_of_finalizeRel hrel
    have hrel2 := hs.rel_get_of_lt (show i < j from hij)
    unfold pairOrd at hrel2
    rw [if_pos rfl, rowKeyVal_ppw, rowKeyVal_ppw, hinull] at hrel2
    apply valAsc_null_right hrel2
    have hmem : (t'.get j).2 ∈ t'.map (·.2) :=
      List.mem_map_of_mem _ (List.get_mem _ _ _)
    have hmem' := (finalizeRel_rows_perm hrel).mem_iff.mp hmem
    rw [colHasStr_eq_rows] at h
    cases hb : (t'.get j).2.pricePerKg.isStr with
    | false => rfl
    | true =>
      exfalso
      have hany : rowsHasStr (·.pricePerKg)
          ((_calucate_price_weight t).map (·.2)) = true :=
        List.any_eq_true.mpr ⟨_, hmem', hb⟩
      rw [hany] at h
      cases h

/-- C3 witness: `prepare_data` itself is an admitted outcome; at the
concrete table whose derived column comes out as `+inf` and `NaN`, the
hypotheses and every conjunct hold. -/
theorem c3_finalize_outcomes_witness :
    finalizeRel aggZeroAndNull (prepare_data aggZeroAndNull)
    ∧ colHasStr (·.pricePerKg) (_calucate_price_weight aggZeroAndNull) = false
    ∧ finalizeOutcomeSpec aggZeroAndNull (prepare_data aggZeroAndNull) :=
  ⟨finalizeRel_prepare aggZeroAndNull, by decide,
   c3_finalize_outcomes _ _ (finalizeRel_prepare aggZeroAndNull) (by decide)⟩

/-- C4 (corrected): `find_text` does not do literal substring matching.
The query `m.lk` returns the Milk record although `milk` does not
contain `m.lk` as a substring (the dot is a regex wildcard); and when
any record's name is `NaN` the whole search returns empty — the query
`milk` returns nothing from `aggMilkAndNull` although the Milk record's
name does contain it case-insensitively. -/
theorem c4_counterexample :
    (find_text aggMilk "m.lk" = aggMilk
      ∧ strContainsSub (lowerStr "Milk") (lowerStr "m.lk") = false)
    ∧ (find_text aggMilkAndNull "milk" = []
      ∧ strContainsSub (lowerStr "Milk") (lowerStr "milk") = true) :=
  ⟨⟨rfl, by decide⟩, ⟨rfl, by decide⟩⟩

/-- C4 (amended): on the inputs where the regex model is faithful — a
query inside the modelled fragment (literals, `.`, `|`) against a table
whose names are all strings; a query starting with a quantifier, which
is a genuine `re.error`; and a record with a `NaN` name, under any
query — `find_text` behaves as `searchSpec` states: exact
regular-expression matching, empty result through the handler, and the
null-name record never returned. -/
theorem c4_search_scoped (t : Agg) (text : String) : searchSpec t text := by
  refine ⟨?_, ?_, ?_⟩
  · intro hsome hall
    obtain ⟨branches, hbr⟩ := Option.isSome_iff_exists.mp hsome
    have hmask : ((t.map fun p => containsMask branches p.2.name).any (·.isNone)) = false := by
      cases hm : ((t.map fun p => containsMask branches p.2.name).any (·.isNone)) with
      | false => rfl
      | true =>
        exfalso
        rcases List.any_eq_true.mp hm with ⟨x, hx, hxn⟩
        rcases List.mem_map.mp hx with ⟨p, hp, rfl⟩
        have hstr := List.all_eq_true.mp hall p hp
        cases hn : p.2.name <;> simp_all [containsMask, Val.isStr]
    have hraw : findTextRaw t text =
        .ok (t.filter fun p => (containsMask branches p.2.name).getD false) := by
      unfold findTextRaw
      rw [hbr]
      dsimp only
      rw [if_neg (by rw [hmask]; exact Bool.false_ne_true)]
    unfold find_text
    rw [hraw]
    apply List.filter_congr
    intro p hp
    have hstr := List.all_eq_true.mp hall p hp
    unfold nameMatches
    rw [hbr]
    cases hn : p.2.name <;> simp_all [containsMask, Val.isStr]
  · intro hq
    have hmeta : text.data.any isUnsupportedMeta = true := by
      cases hd : text.data with
      | nil => simp [leadingQuantifier, hd] at hq
      | cons c rest =>
        have hq' : (c == '*' || c == '+' || c == '?') = true := by
          simpa [leadingQuantifier, hd] using hq
        rw [List.any_cons]
        have hc : isUnsupportedMeta c = true := by
          simp only [Bool.or_eq_true, beq_iff_eq] at hq'
          rcases hq' with (rfl | rfl) | rfl <;> decide
        rw [hc]
        rfl
    have hnone : parseRe text = none := by
      unfold parseRe
      rw [if_pos hmeta]
    unfold find_text findTextRaw
    rw [hnone]
  · intro p hp hnull
    unfold find_text
    cases hr : findTextRaw t text with
    | error e => simp
    | ok res =>
      exfalso
      unfold findTextRaw at hr
      cases hpr : parseRe text with
      | none => rw [hpr] at hr; cases hr
      | some branches =>
        rw [hpr] at hr
        dsimp only at hr
        by_cases hm : ((t.map fun p => containsMask branches p.2.name).any (·.isNone)) = true
        · rw [if_pos hm] at hr; cases hr
        · apply hm
          refine List.any_eq_true.mpr
            ⟨containsMask branches p.2.name, List.mem_map_of_mem _ hp, ?_⟩
          rw [hnull]
          rfl

/-- C4 witness: the literal query `mil` on the all-string table returns
exactly the Milk record, and the invalid pattern `*` (a leading
quantifier) returns empty. -/
theorem c4_search_scoped_witness :
    find_text aggMilk "mil" = aggMilk ∧ find_text aggMilk "*" = [] :=
  ⟨((c4_search_scoped aggMilk "mil").1 (by decide) (by decide)).trans rfl,
   (c4_search_scoped aggMilk "*").2.1 (by decide)⟩

/-- C5: a bad file — missing, empty, or mis-encoded — is parsed to an
empty frame by `__read_csv`'s handlers and contributes no records;
`load_prices` over a batch with one bad file yields record-for-record
the same aggregate as the batch without it, wherever the bad file sits. -/
theorem c5_bad_file_isolated (fs1 fs2 : List FsFile) (nm : String)
    (e : ReadErr) (t : Agg) :
    (load_prices (some (fs1 ++ (nm, .error e) :: fs2)) t).map (fun a => a.map (·.2)) =
      (load_prices (some (fs1 ++ fs2)) t).map (fun a => a.map (·.2)) := by
  unfold load_prices get_files
  simp only [Except.map]
  congr 1
  rw [List.filter_append, List.filter_append, List.filter_cons]
  by_cases hb : (strEndsWith nm ".csv" && strContainsSub (lowerStr nm) "price") = true
  · rw [if_pos hb]
    rw [show List.filter (fun f => strEndsWith f.1 ".csv" && strContainsSub (lowerStr f.1) "price")
          fs1 ++ (nm, Except.error e) ::
            List.filter (fun f => strEndsWith f.1 ".csv" && strContainsSub (lowerStr f.1) "price") fs2
        = (List.filter (fun f => strEndsWith f.1 ".csv" && strContainsSub (lowerStr f.1) "price")
            fs1 ++ [(nm, Except.error e)]) ++
            List.filter (fun f => strEndsWith f.1 ".csv" && strContainsSub (lowerStr f.1) "price") fs2
        by simp]
    rw [List.foldl_append, List.foldl_append, List.foldl_append]
    apply foldl_add_rows_congr
    rw [List.foldl_cons, List.foldl_nil]
    exact add_bad_file_rows nm e _
  · rw [if_neg hb]

/-- C6 (counterexample): `load_prices` on a missing directory does not
complete — `os.listdir` raises `FileNotFoundError`, which nothing
catches. -/
theorem c6_counterexample :
    load_prices none ([] : Agg) = .error .fileNotFound := rfl

/-- C6 (amended): discovery on an *empty* directory yields an empty
sequence and `load_prices` leaves the aggregate unchanged; but on a
*missing* directory `os.listdir`'s `FileNotFoundError` propagates out of
`load_prices`, before the aggregate is touched. -/
theorem c6_discovery_amended (t : Agg) :
    load_prices (some []) t = .ok t
    ∧ load_prices none t = .error .fileNotFound :=
  ⟨rfl, rfl⟩

/-- C7 (counterexample): an operation of the system can raise an uncaught
fault on bad input: `load_prices` with a missing prices directory raises
`FileNotFoundError`. -/
theorem c7_counterexample :
    load_prices none aggMilk = .error .fileNotFound := rfl

/-- C7 (amended): no malformed *file data* makes any operation raise —
`load_prices` succeeds on every existing directory whatever the files
parse to, `find_text` returns an empty table whenever its body raises,
and a failed report write is swallowed; but a *missing directory* makes
`load_prices` itself raise. -/
theorem c7_no_uncaught_amended (fs : List FsFile) (t : Agg) :
    (load_prices (some fs) t).isOk = true
    ∧ load_prices none t = .error .fileNotFound
    ∧ (∀ text, (findTextRaw t text).isOk = false → find_text t text = [])
    ∧ (∀ render : Agg → String, export_to_html render t false = none) := by
  refine ⟨rfl, rfl, ?_, fun render => rfl⟩
  intro text h
  unfold find_text
  cases hr : findTextRaw t text with
  | ok r =>
    rw [hr] at h
    simp [Except.isOk, Except.toBool] at h
  | error e => rfl

/-- C7 witness: the `find_text` conjunct discharged at the invalid
pattern `*`, together with the other conjuncts at concrete inputs. -/
theorem c7_no_uncaught_amended_witness :
    (load_prices (some []) aggMilk).isOk = true
    ∧ load_prices none aggMilk = .error .fileNotFound
    ∧ find_text aggMilk "*" = []
    ∧ export_to_html (fun _ => "") aggMilk false = none := by
  have h := c7_no_uncaught_amended [] aggMilk
  exact ⟨h.1, h.2.1, h.2.2.1 "*" (by decide), h.2.2.2 (fun _ => "")⟩

/-- C8 (counterexample): a row none of whose columns is mapped is *not*
appended as an all-null record — the file contributes nothing, because
`temp_df` never acquires an index. -/
theorem c8_counterexample :
    _add_data_to_base dfUnmapped "price_1.csv" [] = [] := rfl

/-- C8 (amended): ingesting a parsed file appends one record per row
when at least one column is mapped — populated with the last-write-wins
mapped cells, stamped with the file name, unmapped columns dropped, and
a null derived cell — and appends nothing at all when no column is
mapped. -/
theorem c8_ingest_amended (df : Df) (fn : String) (t : Agg) (n : Nat) :
    ingestSpec df fn t n := by
  constructor
  · intro hall
    rw [add_data_rows]
    unfold newRecords
    rw [tempBuild_eq_nil df hall]
    simp [tempRows]
  · intro hsome hwf
    rw [add_data_rows]
    congr 1
    unfold newRecords
    rw [tempRows_eq df n hwf hsome]
    apply List.map_congr_left
    intro i _
    rw [cellAt_tempBuild, cellAt_tempBuild, cellAt_tempBuild]

/-- C8 witness: ingesting File A into an empty aggregate appends exactly
its one row, stamped and with a null derived cell. -/
theorem c8_ingest_amended_witness :
    (_add_data_to_base dfBread "price_1.csv" []).map (·.2) =
      [{ name := Val.str "Bread", price := Val.num 100, weight := Val.num (1 / 2),
         file := Val.str "price_1.csv", pricePerKg := Val.null }] :=
  ((c8_ingest_amended dfBread "price_1.csv" [] 1).2 (by decide) (by decide)).trans rfl

/-- C9 (counterexample): re-invoking finalize on unchanged data need
not reproduce the record order. `tieStable` is an admitted first
outcome on `aggTie`; re-finalizing it admits `tieSwapped`, which
permutes the two records tied on the derived value — the default sort
kind gives the re-sort no reason to keep them in place. -/
theorem c9_idempotence_counterexample :
    finalizeRel aggTie tieStable
    ∧ finalizeRel tieStable tieSwapped
    ∧ tieSwapped ≠ tieStable := by
  refine ⟨⟨aggTie, ⟨by decide, by decide⟩, rfl⟩,
    ⟨[(2, rowTieB), (1, rowTieA)], ⟨by decide, by decide⟩, rfl⟩, by decide⟩

/-- C9 (amended): re-finalizing an unchanged table reproduces the same
display ordinals `1..N` and the same records, again ascending in the
derived value; only the relative order of records tied on the derived
value may differ, as it is unspecified on either run. -/
theorem c9_refinalize_amended (t t' t'' : Agg)
    (h1 : finalizeRel t t') (h2 : finalizeRel t' t'') :
    t''.map (·.1) = t'.map (·.1)
    ∧ (t''.map (·.2)).Perm (t'.map (·.2))
    ∧ List.Sorted (rowOrd "цена за кг." true) (t''.map (·.2)) := by
  refine ⟨?_, ?_, ?_⟩
  · rw [finalizeRel_map_fst h2, finalizeRel_map_fst h1, finalizeRel_length h1]
  · have hp := finalizeRel_rows_perm h2
    rw [derive_of_finalizeRel h1] at hp
    exact hp
  · have hs := sorted_of_finalizeRel h2
    rw [sorted_pairs_iff_rows] at hs
    exact hs

/-- C9 witness: with the order-preserving outcome taken both times on
`aggTie`, the hypotheses hold and the second run reproduces the first
exactly. -/
theorem c9_refinalize_amended_witness :
    finalizeRel aggTie tieStable
    ∧ finalizeRel tieStable tieStable
    ∧ (tieStable.map (·.1) = tieStable.map (·.1)
       ∧ (tieStable.map (·.2)).Perm (tieStable.map (·.2))
       ∧ List.Sorted (rowOrd "цена за кг." true) (tieStable.map (·.2))) := by
  have h1 : finalizeRel aggTie tieStable :=
    ⟨aggTie, ⟨by decide, by decide⟩, rfl⟩
  have h2 : finalizeRel tieStable tieStable :=
    ⟨tieStable, ⟨by decide, by decide⟩, rfl⟩
  exact ⟨h1, h2, c9_refinalize_amended _ _ _ h1 h2⟩

/-- C10: `find_text` passes the query to `str.contains` in its default
regex mode: the wildcard query `.` returns the Milk record although its
name has no literal dot; and the invalid pattern `*` (nothing to repeat)
returns empty via the generic handler even for a record whose name
contains a literal `*`. -/
theorem c10_regex_semantics :
    (find_text aggMilk "." = aggMilk ∧ strContainsSub "Milk" "." = false)
    ∧ (parseRe "*" = none ∧ find_text aggStarName "*" = []
        ∧ strContainsSub "a*b" "*" = true) :=
  ⟨⟨rfl, by decide⟩, ⟨rfl, rfl, by decide⟩⟩

end PriceMachine
